import Mathlib

/-!
Shallow embedding of the shell-sleeper delay engine (src/index.js).

The JavaScript module keeps a global dictionary `shellDelays` mapping integer
handles to values that are either a child-process object, a number
(an indirection to another handle), or — when a recurrence step falls back to
native timers — a native timer object, together with a monotonic counter
`nextshellDelayId`.

External capabilities are parameters of the embedding:
* the availability oracle `isSleepAvailable()` is a boolean argument `avail`
  supplied at each call that consults it;
* `exec` spawning is modelled by a caller-supplied fresh process id plus a
  `spawn` event carrying the sleep duration in seconds (the shell command
  `sleep <secs>s`);
* native timers (`setTimeout` / `setInterval` / `clearTimeout` /
  `clearInterval`) are modelled by a caller-supplied fresh native handle and
  labelled native events;
* `ChildProcess.kill()` outcomes are a function from attempt index and
  process id to Bool (kill returns false when the process already exited).

Callbacks are opaque and identified by a number; invoking one is an event.
Durations are rationals (JavaScript numbers at the level of the spec).
Runtime exceptions (TypeError from calling `.kill()` on a value that lacks
that method) and divergence of the unbounded retry loop are made explicit in
the result type of the cancellation walk, which is run with fuel.
-/

/-- Process ids identify one in-flight `exec` child process. -/
abbrev ProcId := Nat

/-- Native timer handles (Node `Timeout` objects), opaque in the model. -/
abbrev NativeId := Nat

/-- Values stored in the `shellDelays` dictionary: a child-process wrapper,
a number (indirection to another slot), or a native timer object stored by a
recurrence step that ran while the sleep utility was unavailable. -/
inductive RegValue where
  | proc (p : ProcId)
  | indir (h : Nat)
  | native (t : NativeId)
  deriving DecidableEq, Repr

/-- Handles returned to callers: a registry slot index (blocking strategy)
or a native timer handle (fallback strategy). -/
inductive Handle where
  | num (n : Nat)
  | native (t : NativeId)
  deriving DecidableEq, Repr

/-- Observable effects of the engine, in program order. -/
inductive Event where
  | spawn (p : ProcId) (secs : ℚ)
  | writeSlot (slot : Nat) (v : RegValue)
  | invokeCallback (cb : Nat)
  | kill (p : ProcId)
  | nativeSetTimeout (t : NativeId) (cb : Nat) (ms : ℚ)
  | nativeSetInterval (t : NativeId) (cb : Nat) (ms : ℚ)
  | nativeClearTimeout (h : Handle)
  | nativeClearInterval (h : Handle)
  deriving DecidableEq, Repr

/-- The completion handler registered with `exec`: it captures the callback,
the duration, the recur flag and the slot `delayId` allocated for it. -/
structure Handler where
  cb : Nat
  ms : ℚ
  recur : Bool
  slot : Nat
  deriving DecidableEq, Repr

/-- The `shellDelays` dictionary: `none` models a key that is absent
(a JavaScript read of it yields `undefined`). -/
abbrev Registry := Nat → Option RegValue

/-- The module-level mutable state: `shellDelays` and `nextshellDelayId`. -/
structure EngineState where
  shellDelays : Registry
  nextshellDelayId : Nat

/-- The state at module load: empty dictionary, counter 0. -/
def initState : EngineState :=
  { shellDelays := fun _ => none, nextshellDelayId := 0 }

/-- `setShellDelay(callback, ms, recur)` from src/index.js.  `avail` is the
result of the `isSleepAvailable()` call made at the top of the body;
`freshProc` is the process id `exec` allocates and `freshNative` the handle a
native `setTimeout` / `setInterval` would return.  Returns the handle handed
to the caller, the successor state, the emitted events in order, and the
completion handler registered with the spawned process (none on the native
fallback path). -/
def setShellDelay (avail : Bool) (cb : Nat) (ms : ℚ) (recur : Bool)
    (freshProc : ProcId) (freshNative : NativeId) (s : EngineState) :
    Handle × EngineState × List Event × Option Handler :=
  if !avail then
    -- Sleep command not available: fall back to setInterval / setTimeout.
    (Handle.native freshNative, s,
      [if recur then Event.nativeSetInterval freshNative cb ms
        else Event.nativeSetTimeout freshNative cb ms],
      none)
  else
    -- const delayId = nextshellDelayId++; shellDelays[delayId] = exec(...)
    let delayId := s.nextshellDelayId
    (Handle.num delayId,
      { shellDelays := fun k =>
          if k = delayId then some (RegValue.proc freshProc) else s.shellDelays k,
        nextshellDelayId := delayId + 1 },
      [Event.spawn freshProc (ms / 1000),
        Event.writeSlot delayId (RegValue.proc freshProc)],
      some { cb := cb, ms := ms, recur := recur, slot := delayId })

/-- `setShellTimeout(callback, ms)` = `setShellDelay(callback, ms, false)`. -/
def setShellTimeout (avail : Bool) (cb : Nat) (ms : ℚ)
    (freshProc : ProcId) (freshNative : NativeId) (s : EngineState) :
    Handle × EngineState × List Event × Option Handler :=
  setShellDelay avail cb ms false freshProc freshNative s

/-- `setShellInterval(callback, ms)` = `setShellDelay(callback, ms, true)`. -/
def setShellInterval (avail : Bool) (cb : Nat) (ms : ℚ)
    (freshProc : ProcId) (freshNative : NativeId) (s : EngineState) :
    Handle × EngineState × List Event × Option Handler :=
  setShellDelay avail cb ms true freshProc freshNative s

/-- The `exec` completion callback of `setShellDelay`, fired when the child
process of handler `hd` exits.  `error` is whether the process reported an
error (it was killed); `avail`, `freshProc`, `freshNative` feed the nested
`setShellDelay` call made on the recurring path.  Returns the successor
state, the emitted events in order, and the handler registered by the nested
call, if any. -/
def onProcExit (hd : Handler) (error : Bool) (avail : Bool)
    (freshProc : ProcId) (freshNative : NativeId) (s : EngineState) :
    EngineState × List Event × Option Handler :=
  if error then
    -- An error indicates the process was killed: do nothing further.
    (s, [], none)
  else if hd.recur then
    -- shellDelays[delayId] = setShellDelay(callback, ms, true); callback();
    let res := setShellDelay avail hd.cb hd.ms true freshProc freshNative s
    let v := match res.1 with
      | Handle.num n => RegValue.indir n
      | Handle.native t => RegValue.native t
    let s2 : EngineState :=
      { shellDelays := fun k =>
          if k = hd.slot then some v else res.2.1.shellDelays k,
        nextshellDelayId := res.2.1.nextshellDelayId }
    (s2, res.2.2.1 ++ [Event.writeSlot hd.slot v, Event.invokeCallback hd.cb],
      res.2.2.2)
  else
    -- callback();
    (s, [Event.invokeCallback hd.cb], none)

/-- The inner while loop of `clearShellDelay`: starting from key `h`, read
the dictionary and follow values that are numbers until a non-number value
(or an absent key, i.e. `undefined`) is reached.  Fuel bounds the chain
length; `none` means the fuel ran out (an indirection cycle). -/
def followChain (reg : Registry) : Nat → Nat → Option (Option RegValue)
  | 0, _ => none
  | fuel + 1, h =>
    match reg h with
    | some (RegValue.indir k) => followChain reg fuel k
    | some (RegValue.proc p) => some (some (RegValue.proc p))
    | some (RegValue.native t) => some (some (RegValue.native t))
    | none => some none

/-- Outcome of a `clearShellDelay` call: normal return, a thrown runtime
TypeError (calling `.kill()` on a value that lacks that method), or fuel
exhaustion, which models divergence of the unbounded loops. -/
inductive ClearResult where
  | ok
  | typeError
  | outOfFuel
  deriving DecidableEq, Repr

/-- The do/while loop of `clearShellDelay`: each iteration walks the chain
from the original handle `h`, then calls `.kill()` on the value reached.
`killFn attempt p` is the result of `ChildProcess.kill()` on process `p` at
the given attempt index.  A value reached that is not a process wrapper has
no `kill` method, so calling it throws a TypeError. -/
def clearShellDelayAux (reg : Registry) (killFn : Nat → ProcId → Bool)
    (cf : Nat) (h : Nat) : Nat → Nat → ClearResult × List Event
  | 0, _ => (ClearResult.outOfFuel, [])
  | fuel + 1, attempt =>
    match followChain reg cf h with
    | none => (ClearResult.outOfFuel, [])
    | some none => (ClearResult.typeError, [])
    | some (some (RegValue.native _)) => (ClearResult.typeError, [])
    | some (some (RegValue.indir _)) => (ClearResult.typeError, [])
    | some (some (RegValue.proc p)) =>
      if killFn attempt p then (ClearResult.ok, [Event.kill p])
      else
        let r := clearShellDelayAux reg killFn cf h fuel (attempt + 1)
        (r.1, Event.kill p :: r.2)

/-- `clearShellDelay(handle)` from src/index.js, run with fuel for the outer
retry loop (`fuel`) and the inner indirection walk (`cf`). -/
def clearShellDelay (reg : Registry) (killFn : Nat → ProcId → Bool)
    (cf fuel : Nat) (h : Nat) : ClearResult × List Event :=
  clearShellDelayAux reg killFn cf h fuel 0

/-- `clearShellTimeout(handle)`: `isSleepAvailable() ? clearShellDelay(handle)
: clearTimeout(handle)`.  On the available path a native handle indexes the
dictionary with a non-numeric key, which misses, and `.kill()` of `undefined`
throws.  The first component is `none` when no walk happened (native path). -/
def clearShellTimeout (avail : Bool) (reg : Registry)
    (killFn : Nat → ProcId → Bool) (cf fuel : Nat) (h : Handle) :
    Option ClearResult × List Event :=
  if avail then
    match h with
    | Handle.num n =>
      let r := clearShellDelay reg killFn cf fuel n
      (some r.1, r.2)
    | Handle.native _ => (some ClearResult.typeError, [])
  else (none, [Event.nativeClearTimeout h])

/-- `clearShellInterval(handle)`: identical to `clearShellTimeout` except
that the fallback branch calls `clearInterval` instead of `clearTimeout`. -/
def clearShellInterval (avail : Bool) (reg : Registry)
    (killFn : Nat → ProcId → Bool) (cf fuel : Nat) (h : Handle) :
    Option ClearResult × List Event :=
  if avail then
    match h with
    | Handle.num n =>
      let r := clearShellDelay reg killFn cf fuel n
      (some r.1, r.2)
    | Handle.native _ => (some ClearResult.typeError, [])
  else (none, [Event.nativeClearInterval h])

/-- States reachable from module load by scheduling calls and process-exit
callbacks, where every consulted availability answer satisfies `allowed`.
The side condition on `exit` records that a completion handler only exists
for a slot that was previously allocated. -/
inductive Reach (allowed : Bool → Prop) : EngineState → Prop where
  | init : Reach allowed initState
  | sched (avail : Bool) (cb : Nat) (ms : ℚ) (recur : Bool)
      (p nt : Nat) {s : EngineState} :
      Reach allowed s → allowed avail →
      Reach allowed (setShellDelay avail cb ms recur p nt s).2.1
  | exit (hd : Handler) (error avail : Bool) (p nt : Nat) {s : EngineState} :
      Reach allowed s → allowed avail →
      hd.slot < s.nextshellDelayId →
      Reach allowed (onProcExit hd error avail p nt s).1

/-- Reachable with arbitrary availability answers over time. -/
abbrev Reachable : EngineState → Prop := Reach (fun _ => True)

/-- Reachable while the availability oracle reported true at every step. -/
abbrev ReachableT : EngineState → Prop := Reach (fun b => b = true)

/-- Registry invariant maintained while the sleep utility stays available:
exactly the slots below the counter are populated, indirections point
strictly upward and below the counter, and no slot holds a native handle. -/
def RegInv (s : EngineState) : Prop :=
  (∀ h, (s.shellDelays h).isSome ↔ h < s.nextshellDelayId) ∧
  (∀ h k, s.shellDelays h = some (RegValue.indir k) →
    h < k ∧ k < s.nextshellDelayId) ∧
  (∀ h t, s.shellDelays h ≠ some (RegValue.native t))

/-- A state reached by one recurring schedule made while the sleep utility
was available: slot 0 holds the process wrapper, the counter is 1. -/
def cexState1 : EngineState :=
  (setShellDelay true 0 1000 true 0 9 initState).2.1

/-- The state after the recurrence tick of that schedule ran while the sleep
utility was unavailable: the nested `setShellDelay` fell back to a native
timer and its native handle was stored in slot 0. -/
def cexState2 : EngineState :=
  (onProcExit { cb := 0, ms := 1000, recur := true, slot := 0 }
    false false 7 5 cexState1).1

/-! ## Claim theorems -/

/-- Claim C4: when the process of a blocking-strategy delay completes with an
error (it was killed), the completion handler does nothing further: the
callback is not invoked, no new delay is scheduled, no slot is written, and
the state is unchanged, for recurring and non-recurring delays alike. -/
theorem onProcExit_error_suppresses_all (hd : Handler) (avail : Bool)
    (p nt : Nat) (s : EngineState) :
    onProcExit hd true avail p nt s = (s, [], none) := rfl

/-- Claim C2: on normal completion of a recurring blocking-strategy delay
(with the sleep utility still available), the handler first re-runs
`setShellDelay` with the same callback, duration and recur flag (first two
events, and the registered handler), overwrites the original slot with the
returned handle as an indirection (third event), and only then invokes the
callback (fourth event); the state in which the callback runs already has
the slot overwritten. -/
theorem onProcExit_recurring_overwrites_slot_before_callback (hd : Handler)
    (p nt : Nat) (s : EngineState) (hr : hd.recur = true) :
    (onProcExit hd false true p nt s).2.1 =
      [Event.spawn p (hd.ms / 1000),
        Event.writeSlot s.nextshellDelayId (RegValue.proc p),
        Event.writeSlot hd.slot (RegValue.indir s.nextshellDelayId),
        Event.invokeCallback hd.cb] ∧
    (onProcExit hd false true p nt s).2.2 =
      some { cb := hd.cb, ms := hd.ms, recur := true, slot := s.nextshellDelayId } ∧
    (onProcExit hd false true p nt s).1.shellDelays hd.slot =
      some (RegValue.indir s.nextshellDelayId) := by
  refine ⟨?_, ?_, ?_⟩ <;> simp [onProcExit, setShellDelay, hr]

theorem onProcExit_recurring_overwrites_slot_before_callback_witness :
    (onProcExit { cb := 1, ms := 1000, recur := true, slot := 0 } false true 2 3
        { shellDelays := fun _ => none, nextshellDelayId := 1 }).2.1 =
      [Event.spawn 2 ((1000 : ℚ) / 1000),
        Event.writeSlot 1 (RegValue.proc 2),
        Event.writeSlot 0 (RegValue.indir 1),
        Event.invokeCallback 1] ∧
    (onProcExit { cb := 1, ms := 1000, recur := true, slot := 0 } false true 2 3
        { shellDelays := fun _ => none, nextshellDelayId := 1 }).2.2 =
      some { cb := 1, ms := 1000, recur := true, slot := 1 } ∧
    (onProcExit { cb := 1, ms := 1000, recur := true, slot := 0 } false true 2 3
        { shellDelays := fun _ => none, nextshellDelayId := 1 }).1.shellDelays 0 =
      some (RegValue.indir 1) :=
  onProcExit_recurring_overwrites_slot_before_callback
    { cb := 1, ms := 1000, recur := true, slot := 0 } 2 3
    { shellDelays := fun _ => none, nextshellDelayId := 1 } rfl

/-- Claim C10: a blocking-strategy scheduling call writes exactly the
freshly allocated slot (which receives the process wrapper) and leaves every
other slot unchanged, bumping the counter by one; and the normal completion
of a non-recurring delay modifies no slot at all — it only invokes the
callback. -/
theorem setShellDelay_frame (cb : Nat) (ms : ℚ) (recur : Bool) (p nt : Nat)
    (s : EngineState) (k : Nat) (hd : Handler) (avail : Bool) (p2 nt2 : Nat)
    (s2 : EngineState) (hk : k ≠ s.nextshellDelayId) (hr : hd.recur = false) :
    (setShellDelay true cb ms recur p nt s).2.1.shellDelays s.nextshellDelayId
      = some (RegValue.proc p) ∧
    (setShellDelay true cb ms recur p nt s).2.1.shellDelays k = s.shellDelays k ∧
    (setShellDelay true cb ms recur p nt s).2.1.nextshellDelayId
      = s.nextshellDelayId + 1 ∧
    onProcExit hd false avail p2 nt2 s2 =
      (s2, [Event.invokeCallback hd.cb], none) := by
  refine ⟨?_, ?_, ?_, ?_⟩ <;> simp [setShellDelay, onProcExit, hk, hr]

theorem setShellDelay_frame_witness :
    (setShellDelay true 0 100 false 1 2 initState).2.1.shellDelays
        initState.nextshellDelayId = some (RegValue.proc 1) ∧
    (setShellDelay true 0 100 false 1 2 initState).2.1.shellDelays 5 =
      initState.shellDelays 5 ∧
    (setShellDelay true 0 100 false 1 2 initState).2.1.nextshellDelayId =
      initState.nextshellDelayId + 1 ∧
    onProcExit { cb := 4, ms := 100, recur := false, slot := 0 } false true 1 2
        initState = (initState, [Event.invokeCallback 4], none) :=
  setShellDelay_frame 0 100 false 1 2 initState 5
    { cb := 4, ms := 100, recur := false, slot := 0 } true 1 2 initState
    (by decide) rfl

/-- Claim C7: a scheduling call made while the oracle reports false
delegates to the native once/repeating timer primitive with the given
callback and duration, returns the native handle verbatim, and leaves the
registry and counter untouched; the cancel wrappers likewise pass the handle
unchanged to the corresponding native cancel primitive. -/
theorem fallback_native_passthrough (cb : Nat) (ms : ℚ) (p nt : Nat)
    (s : EngineState) (reg : Registry) (kf : Nat → ProcId → Bool)
    (cf fuel : Nat) (h : Handle) :
    setShellTimeout false cb ms p nt s =
      (Handle.native nt, s, [Event.nativeSetTimeout nt cb ms], none) ∧
    setShellInterval false cb ms p nt s =
      (Handle.native nt, s, [Event.nativeSetInterval nt cb ms], none) ∧
    clearShellTimeout false reg kf cf fuel h =
      (none, [Event.nativeClearTimeout h]) ∧
    clearShellInterval false reg kf cf fuel h =
      (none, [Event.nativeClearInterval h]) :=
  ⟨rfl, rfl, rfl, rfl⟩

/-- Claim C8: the blocking process spawned by an available-path scheduling
call runs the shell command sleep-for-seconds with the duration equal to
exactly `ms / 1000` (rational arithmetic, fractional values preserved); in
particular a 500 ms delay spawns a sleep of exactly half a second. -/
theorem spawn_command_seconds_exact (cb : Nat) (ms : ℚ) (recur : Bool)
    (p nt : Nat) (s : EngineState) :
    (setShellDelay true cb ms recur p nt s).2.2.1 =
      [Event.spawn p (ms / 1000),
        Event.writeSlot s.nextshellDelayId (RegValue.proc p)] ∧
    (setShellDelay true cb 500 recur p nt s).2.2.1.head? =
      some (Event.spawn p (1 / 2)) := by
  constructor
  · rfl
  · simp only [setShellDelay, Bool.not_true, Bool.false_eq_true, if_false,
      List.head?_cons]
    norm_num

/-- Claim C5 (amended): the two cancel wrappers are identical whenever the
oracle reports true; when it reports false each delegates to its own native
cancel primitive (`clearTimeout` and `clearInterval` respectively), passing
the handle unchanged. -/
theorem clear_wrappers_agree_when_available (reg : Registry)
    (kf : Nat → ProcId → Bool) (cf fuel : Nat) (h : Handle) :
    clearShellTimeout true reg kf cf fuel h =
      clearShellInterval true reg kf cf fuel h ∧
    clearShellTimeout false reg kf cf fuel h =
      (none, [Event.nativeClearTimeout h]) ∧
    clearShellInterval false reg kf cf fuel h =
      (none, [Event.nativeClearInterval h]) := by
  refine ⟨?_, rfl, rfl⟩
  cases h <;> rfl

/-- Claim C5 counterexample: with the oracle reporting false, the two cancel
wrappers are not identical — on the same handle one invokes the native
`clearTimeout` and the other the native `clearInterval`. -/
theorem clear_wrappers_fallback_differ_counterexample :
    clearShellTimeout false (fun _ => none) (fun _ _ => true) 1 1 (Handle.num 0) ≠
      clearShellInterval false (fun _ => none) (fun _ _ => true) 1 1
        (Handle.num 0) := by
  decide

/-- Claim C9: cancelling a handle that has no registry entry while the
oracle reports true reads an undefined slot value and calls a termination
method on it, so both wrappers raise a runtime TypeError — no normal return,
no kill attempt, no retry. -/
theorem clear_unknown_handle_type_error (reg : Registry)
    (kf : Nat → ProcId → Bool) (cf fuel n : Nat) (hreg : reg n = none) :
    clearShellTimeout true reg kf (cf + 1) (fuel + 1) (Handle.num n) =
      (some ClearResult.typeError, []) ∧
    clearShellInterval true reg kf (cf + 1) (fuel + 1) (Handle.num n) =
      (some ClearResult.typeError, []) := by
  constructor <;>
    simp [clearShellTimeout, clearShellInterval, clearShellDelay,
      clearShellDelayAux, followChain, hreg]

theorem clear_unknown_handle_type_error_witness :
    clearShellTimeout true (fun _ => none) (fun _ _ => true) 1 1 (Handle.num 0) =
      (some ClearResult.typeError, []) ∧
    clearShellInterval true (fun _ => none) (fun _ _ => true) 1 1 (Handle.num 0) =
      (some ClearResult.typeError, []) :=
  clear_unknown_handle_type_error (fun _ => none) (fun _ _ => true) 0 0 0 rfl

/-! ## Retry loop lemmas -/

/-- Helper: a chain result is stable under giving the walk more fuel. -/
theorem followChain_mono (reg : Registry) :
    ∀ f f' h v, followChain reg f h = some v → f ≤ f' →
      followChain reg f' h = some v := by
  intro f
  induction f with
  | zero => intro f' h v hv _; simp [followChain] at hv
  | succ g ih =>
    intro f' h v hv hle
    obtain ⟨f2, rfl⟩ : ∃ f2, f' = f2 + 1 := ⟨f' - 1, by omega⟩
    cases hr : reg h with
    | none =>
      simp only [followChain, hr] at hv ⊢; exact hv
    | some w =>
      cases w with
      | proc p => simp only [followChain, hr] at hv ⊢; exact hv
      | native t => simp only [followChain, hr] at hv ⊢; exact hv
      | indir k =>
        simp only [followChain, hr] at hv ⊢
        exact ih f2 k v hv (by omega)

/-- Helper: if the walk from `h` reaches process `p`, and the kill attempts
starting at index `attempt` fail `n` times and then succeed, the retry loop
returns normally after exactly `n + 1` kill requests on `p`. -/
theorem clearShellDelayAux_retry (reg : Registry) (kf : Nat → ProcId → Bool)
    (cf h : Nat) (p : ProcId)
    (hch : followChain reg cf h = some (some (RegValue.proc p))) :
    ∀ n fuel attempt, n < fuel →
      (∀ i, i < n → kf (attempt + i) p = false) →
      kf (attempt + n) p = true →
      clearShellDelayAux reg kf cf h fuel attempt =
        (ClearResult.ok, List.replicate (n + 1) (Event.kill p)) := by
  intro n
  induction n with
  | zero =>
    intro fuel attempt hf _ hs
    obtain ⟨f, rfl⟩ : ∃ f, fuel = f + 1 := ⟨fuel - 1, by omega⟩
    rw [Nat.add_zero] at hs
    simp [clearShellDelayAux, hch, hs]
  | succ m ih =>
    intro fuel attempt hf hfail hs
    obtain ⟨f, rfl⟩ : ∃ f, fuel = f + 1 := ⟨fuel - 1, by omega⟩
    have h0 : kf attempt p = false := by
      have := hfail 0 (by omega)
      rwa [Nat.add_zero] at this
    have hrest : clearShellDelayAux reg kf cf h f (attempt + 1) =
        (ClearResult.ok, List.replicate (m + 1) (Event.kill p)) := by
      refine ih f (attempt + 1) (by omega) ?_ ?_
      · intro i hi
        have heq : attempt + 1 + i = attempt + (i + 1) := by omega
        rw [heq]
        exact hfail (i + 1) (by omega)
      · have heq : attempt + 1 + m = attempt + (m + 1) := by omega
        rw [heq]
        exact hs
    simp [clearShellDelayAux, hch, h0, hrest, List.replicate_succ]

/-- Claim C1: with the blocking mechanism available, `clearShellDelay` walks
the registry from the given handle following number-valued slots until it
reaches a process wrapper, requests its termination, and, on failure,
repeats the whole walk from the original handle until a termination request
succeeds — here the first `n` requests fail and exactly `n + 1` kill
requests are issued before the call returns normally. -/
theorem clearShellDelay_walks_and_retries_until_kill_succeeds
    (reg : Registry) (kf : Nat → ProcId → Bool) (cf fuel h : Nat)
    (p : ProcId) (n : Nat)
    (hch : followChain reg cf h = some (some (RegValue.proc p)))
    (hfail : ∀ i, i < n → kf i p = false)
    (hsucc : kf n p = true) (hn : n < fuel) :
    clearShellDelay reg kf cf fuel h =
      (ClearResult.ok, List.replicate (n + 1) (Event.kill p)) := by
  have := clearShellDelayAux_retry reg kf cf h p hch n fuel 0 hn
    (fun i hi => by simpa using hfail i hi) (by simpa using hsucc)
  simpa [clearShellDelay] using this

theorem clearShellDelay_walks_and_retries_until_kill_succeeds_witness :
    clearShellDelay
      (fun h => if h = 0 then some (RegValue.indir 1)
        else if h = 1 then some (RegValue.proc 5) else none)
      (fun i _ => decide (i = 1)) 3 3 0 =
      (ClearResult.ok, List.replicate 2 (Event.kill 5)) :=
  clearShellDelay_walks_and_retries_until_kill_succeeds
    (fun h => if h = 0 then some (RegValue.indir 1)
      else if h = 1 then some (RegValue.proc 5) else none)
    (fun i _ => decide (i = 1)) 3 3 0 5 1
    (by decide) (by decide) (by decide) (by decide)

/-! ## Registry invariant under constant availability -/

/-- Helper: the initial state satisfies the registry invariant. -/
theorem regInv_init : RegInv initState := by
  refine ⟨?_, ?_, ?_⟩
  · intro h; simp [initState]
  · intro h k hk; simp [initState] at hk
  · intro h t; simp [initState]

/-- Helper: pointwise description of the state produced by an available-path
scheduling call. -/
theorem setShellDelay_avail_state (cb : Nat) (ms : ℚ) (recur : Bool)
    (p nt : Nat) (s : EngineState) :
    (∀ k, (setShellDelay true cb ms recur p nt s).2.1.shellDelays k =
      if k = s.nextshellDelayId then some (RegValue.proc p)
      else s.shellDelays k) ∧
    (setShellDelay true cb ms recur p nt s).2.1.nextshellDelayId =
      s.nextshellDelayId + 1 := by
  constructor
  · intro k; simp [setShellDelay]
  · simp [setShellDelay]

/-- Helper: an available-path scheduling call preserves the invariant. -/
theorem regInv_sched (cb : Nat) (ms : ℚ) (recur : Bool) (p nt : Nat)
    (s : EngineState) (hinv : RegInv s) :
    RegInv (setShellDelay true cb ms recur p nt s).2.1 := by
  obtain ⟨h1, h2, h3⟩ := hinv
  obtain ⟨hreg, hnext⟩ := setShellDelay_avail_state cb ms recur p nt s
  refine ⟨?_, ?_, ?_⟩
  · intro h
    rw [hreg h, hnext]
    by_cases hc : h = s.nextshellDelayId
    · subst hc
      rw [if_pos rfl]
      exact iff_of_true rfl (by omega)
    · rw [if_neg hc, h1 h]
      omega
  · intro h k hk
    rw [hreg h] at hk
    rw [hnext]
    by_cases hc : h = s.nextshellDelayId
    · subst hc
      rw [if_pos rfl] at hk
      simp at hk
    · rw [if_neg hc] at hk
      have := h2 h k hk
      omega
  · intro h t hk
    rw [hreg h] at hk
    by_cases hc : h = s.nextshellDelayId
    · subst hc
      rw [if_pos rfl] at hk
      simp at hk
    · rw [if_neg hc] at hk
      exact h3 h t hk

/-- Helper: pointwise description of the state produced by a normal
recurring completion with the sleep utility available. -/
theorem onProcExit_recur_avail_state (hd : Handler) (p nt : Nat)
    (s : EngineState) (hr : hd.recur = true) :
    (∀ k, (onProcExit hd false true p nt s).1.shellDelays k =
      if k = hd.slot then some (RegValue.indir s.nextshellDelayId)
      else if k = s.nextshellDelayId then some (RegValue.proc p)
      else s.shellDelays k) ∧
    (onProcExit hd false true p nt s).1.nextshellDelayId =
      s.nextshellDelayId + 1 := by
  constructor
  · intro k; simp [onProcExit, setShellDelay, hr]
  · simp [onProcExit, setShellDelay, hr]

/-- Helper: a process-exit callback for an allocated slot preserves the
invariant when the sleep utility is (still) available. -/
theorem regInv_exit (hd : Handler) (error : Bool) (p nt : Nat)
    (s : EngineState) (hinv : RegInv s)
    (hslot : hd.slot < s.nextshellDelayId) :
    RegInv (onProcExit hd error true p nt s).1 := by
  cases error with
  | true => exact hinv
  | false =>
    cases hr : hd.recur with
    | false => simpa [onProcExit, hr] using hinv
    | true =>
      obtain ⟨h1, h2, h3⟩ := hinv
      obtain ⟨hreg, hnext⟩ := onProcExit_recur_avail_state hd p nt s hr
      refine ⟨?_, ?_, ?_⟩
      · intro h
        rw [hreg h, hnext]
        by_cases hc1 : h = hd.slot
        · subst hc1
          rw [if_pos rfl]
          exact iff_of_true rfl (by omega)
        · rw [if_neg hc1]
          by_cases hc2 : h = s.nextshellDelayId
          · subst hc2
            rw [if_pos rfl]
            exact iff_of_true rfl (by omega)
          · rw [if_neg hc2, h1 h]
            omega
      · intro h k hk
        rw [hreg h] at hk
        rw [hnext]
        by_cases hc1 : h = hd.slot
        · subst hc1
          rw [if_pos rfl] at hk
          simp only [Option.some.injEq, RegValue.indir.injEq] at hk
          omega
        · rw [if_neg hc1] at hk
          by_cases hc2 : h = s.nextshellDelayId
          · subst hc2
            rw [if_pos rfl] at hk
            simp at hk
          · rw [if_neg hc2] at hk
            have := h2 h k hk
            omega
      · intro h t hk
        rw [hreg h] at hk
        by_cases hc1 : h = hd.slot
        · subst hc1
          rw [if_pos rfl] at hk
          simp at hk
        · rw [if_neg hc1] at hk
          by_cases hc2 : h = s.nextshellDelayId
          · subst hc2
            rw [if_pos rfl] at hk
            simp at hk
          · rw [if_neg hc2] at hk
            exact h3 h t hk

/-- Helper: every state reachable with the oracle constantly reporting true
satisfies the registry invariant. -/
theorem reachableT_regInv (s : EngineState) (hs : ReachableT s) : RegInv s := by
  induction hs with
  | init => exact regInv_init
  | sched avail cb ms recur p nt hprev ha ih =>
    subst ha
    exact regInv_sched cb ms recur p nt _ ih
  | exit hd error avail p nt hprev ha hslot ih =>
    subst ha
    exact regInv_exit hd error p nt _ ih hslot

/-- Helper: under the invariant, the walk from any populated slot reaches a
process wrapper within `counter - slot` steps. -/
theorem regInv_chain (s : EngineState) (hinv : RegInv s) :
    ∀ d h, s.nextshellDelayId - h ≤ d → h < s.nextshellDelayId →
      ∃ p, followChain s.shellDelays (s.nextshellDelayId - h) h =
        some (some (RegValue.proc p)) := by
  obtain ⟨h1, h2, h3⟩ := hinv
  intro d
  induction d with
  | zero => intro h hle hlt; omega
  | succ e ih =>
    intro h hle hlt
    obtain ⟨m, hm⟩ : ∃ m, s.nextshellDelayId - h = m + 1 :=
      ⟨s.nextshellDelayId - h - 1, by omega⟩
    rw [hm]
    have hsome : (s.shellDelays h).isSome := (h1 h).mpr hlt
    cases hv : s.shellDelays h with
    | none => rw [hv] at hsome; simp at hsome
    | some w =>
      cases w with
      | proc q => exact ⟨q, by simp [followChain, hv]⟩
      | native t => exact absurd hv (h3 h t)
      | indir k =>
        obtain ⟨hk1, hk2⟩ := h2 h k hv
        obtain ⟨q, hq⟩ := ih k (by omega) hk2
        refine ⟨q, ?_⟩
        simp only [followChain, hv]
        exact followChain_mono _ _ _ _ _ hq (by omega)

/-- Claim C3 (amended): at every state reachable while the availability
oracle reported true at each scheduling and process-exit step, following
indirections from any dispensed slot reaches a process wrapper in finitely
many steps (in particular, indirection chains have no cycles and never end
in a non-process value). -/
theorem reachableT_chain_reaches_process (s : EngineState)
    (hs : ReachableT s) (h : Nat) (hh : h < s.nextshellDelayId) :
    ∃ p f, followChain s.shellDelays f h =
      some (some (RegValue.proc p)) := by
  obtain ⟨p, hp⟩ := regInv_chain s (reachableT_regInv s hs)
    (s.nextshellDelayId - h) h le_rfl hh
  exact ⟨p, s.nextshellDelayId - h, hp⟩

theorem reachableT_chain_reaches_process_witness :
    ∃ p f, followChain
      (setShellDelay true 0 1000 false 1 2 initState).2.1.shellDelays f 0 =
      some (some (RegValue.proc p)) :=
  reachableT_chain_reaches_process
    (setShellDelay true 0 1000 false 1 2 initState).2.1
    (Reach.sched true 0 1000 false 1 2 Reach.init rfl) 0 (by decide)

/-- Claim C3 counterexample: a reachable state (one recurring schedule while
the sleep utility was available, whose recurrence tick ran while it was
unavailable) in which the walk from live slot 0 terminates in a native timer
handle — a value that is neither an integer nor a process wrapper. -/
theorem registry_chain_native_terminal_counterexample :
    Reachable cexState2 ∧
    cexState2.shellDelays 0 = some (RegValue.native 5) ∧
    followChain cexState2.shellDelays 1 0 =
      some (some (RegValue.native 5)) := by
  refine ⟨?_, by decide, by decide⟩
  have h1 : Reachable cexState1 :=
    Reach.sched true 0 1000 true 0 9 Reach.init trivial
  exact Reach.exit { cb := 0, ms := 1000, recur := true, slot := 0 }
    false false 7 5 h1 trivial (by decide)

/-- Helper: if the walk from `h` reaches process `p` and some kill attempt
within the fuel succeeds, the retry loop returns normally. -/
theorem clearShellDelayAux_ok (reg : Registry) (kf : Nat → ProcId → Bool)
    (cf h : Nat) (p : ProcId)
    (hch : followChain reg cf h = some (some (RegValue.proc p))) :
    ∀ fuel attempt, (∃ n, n < fuel ∧ kf (attempt + n) p = true) →
      (clearShellDelayAux reg kf cf h fuel attempt).1 = ClearResult.ok := by
  intro fuel
  induction fuel with
  | zero =>
    rintro attempt ⟨n, hn, _⟩
    omega
  | succ f ih =>
    rintro attempt ⟨n, hn, hs⟩
    by_cases hk : kf attempt p = true
    · simp [clearShellDelayAux, hch, hk]
    · obtain ⟨m, rfl⟩ : ∃ m, n = m + 1 := by
        refine ⟨n - 1, ?_⟩
        rcases Nat.eq_zero_or_pos n with h0 | h0
        · subst h0
          rw [Nat.add_zero] at hs
          exact absurd hs hk
        · omega
      have hs2 : kf (attempt + 1 + m) p = true := by
        have heq : attempt + 1 + m = attempt + (m + 1) := by omega
        rw [heq]
        exact hs
      have := ih (attempt + 1) ⟨m, by omega, hs2⟩
      simp [clearShellDelayAux, hch, hk, this]

/-- Claim C6 (amended): no error reaches the caller from scheduling
(`setShellDelay` is total and returns a handle) or from cancelling a
dispensed handle, provided the availability oracle reported true at every
scheduling and recurrence step and at cancellation, and some termination
request eventually succeeds: the walk reaches a process wrapper and the
retry loop returns normally, through both cancel wrappers.  (If the
availability report changes between scheduling and cancellation, a
cancellation of a valid handle can instead raise a TypeError — see the
counterexample.) -/
theorem clear_valid_handle_ok_when_available (s : EngineState)
    (hs : ReachableT s) (h cf fuel : Nat) (kf : Nat → ProcId → Bool)
    (hh : h < s.nextshellDelayId) (hcf : s.nextshellDelayId ≤ cf)
    (hkf : ∀ p, ∃ n, n < fuel ∧ kf n p = true) :
    (clearShellDelay s.shellDelays kf cf fuel h).1 = ClearResult.ok ∧
    (clearShellTimeout true s.shellDelays kf cf fuel (Handle.num h)).1 =
      some ClearResult.ok ∧
    (clearShellInterval true s.shellDelays kf cf fuel (Handle.num h)).1 =
      some ClearResult.ok := by
  obtain ⟨p, hp⟩ := regInv_chain s (reachableT_regInv s hs)
    (s.nextshellDelayId - h) h le_rfl hh
  have hp2 : followChain s.shellDelays cf h =
      some (some (RegValue.proc p)) :=
    followChain_mono _ _ _ _ _ hp (by omega)
  obtain ⟨n, hn, hkn⟩ := hkf p
  have hmain : (clearShellDelay s.shellDelays kf cf fuel h).1 =
      ClearResult.ok := by
    have := clearShellDelayAux_ok s.shellDelays kf cf h p hp2 fuel 0
      ⟨n, hn, by simpa using hkn⟩
    simpa [clearShellDelay] using this
  exact ⟨hmain, by simp [clearShellTimeout, hmain],
    by simp [clearShellInterval, hmain]⟩

theorem clear_valid_handle_ok_when_available_witness :
    (clearShellDelay
      (setShellDelay true 0 1000 false 1 2 initState).2.1.shellDelays
      (fun _ _ => true) 1 1 0).1 = ClearResult.ok ∧
    (clearShellTimeout true
      (setShellDelay true 0 1000 false 1 2 initState).2.1.shellDelays
      (fun _ _ => true) 1 1 (Handle.num 0)).1 = some ClearResult.ok ∧
    (clearShellInterval true
      (setShellDelay true 0 1000 false 1 2 initState).2.1.shellDelays
      (fun _ _ => true) 1 1 (Handle.num 0)).1 = some ClearResult.ok :=
  clear_valid_handle_ok_when_available
    (setShellDelay true 0 1000 false 1 2 initState).2.1
    (Reach.sched true 0 1000 false 1 2 Reach.init rfl) 0 1 1
    (fun _ _ => true) (by decide) (by decide)
    (fun _ => ⟨0, Nat.zero_lt_one, rfl⟩)

/-- Claim C6 counterexample: handle 0 is returned by a recurring schedule
made while the sleep utility was available; its recurrence tick runs while
the utility is unavailable, storing a native timer handle in slot 0; a
subsequent cancellation made while the utility is available again reaches
that native handle, whose termination request raises a TypeError to the
caller. -/
theorem clear_valid_handle_type_error_counterexample :
    (setShellDelay true 0 1000 true 0 9 initState).1 = Handle.num 0 ∧
    Reachable cexState2 ∧
    clearShellInterval true cexState2.shellDelays (fun _ _ => true) 3 3
      (Handle.num 0) = (some ClearResult.typeError, []) := by
  refine ⟨by decide, ?_, by decide⟩
  have h1 : Reachable cexState1 :=
    Reach.sched true 0 1000 true 0 9 Reach.init trivial
  exact Reach.exit { cb := 0, ms := 1000, recur := true, slot := 0 }
    false false 7 5 h1 trivial (by decide)
